import Mathlib

/-!
Shallow embedding of the `aftr refs` subsystem
(`packages/cli/src/aftr/refs.py` and
`packages/cli/src/aftr/commands/refs_cmd.py`).

Files on disk are modelled as explicit values (the state file as a
`StateFile`, the config file as a `ConfigFile`, mirror directories as an
association list keyed by `local_dir`).  The git executable and its
subprocess calls are modelled by a `GitEnv` record: each field abstracts
exactly one subprocess boundary (`git ls-remote`, `git clone`,
`git sparse-checkout set`, and the resulting checked-out tree).
Python dictionaries are modelled as association lists with
`getEntry`/`setEntry` mirroring `d.get(k)` / `d[k] = v`.
-/

/-- Python `d.get(k)` on a dict modelled as an association list. -/
def getEntry {α : Type} (l : List (String × α)) (k : String) : Option α :=
  (l.find? (fun p => p.1 == k)).map (fun p => p.2)

/-- Python `d[k] = v`: replace the entry in place when the key is present
(keeping its position), otherwise append it at the end. -/
def setEntry {α : Type} (l : List (String × α)) (k : String) (v : α) :
    List (String × α) :=
  if l.any (fun p => p.1 == k) then
    l.map (fun p => if p.1 == k then (k, v) else p)
  else l ++ [(k, v)]

/-- `RefsSource` dataclass of `refs.py` (name, url, path, branch, local_dir). -/
structure RefsSource where
  name : String
  url : String
  path : String
  branch : String
  local_dir : String
deriving Repr, DecidableEq

/-- Construction of a `RefsSource`, including `__post_init__`:
an empty `local_dir` defaults to `name`. -/
def mkRefsSource (name url path branch local_dir : String) : RefsSource :=
  { name := name, url := url, path := path, branch := branch,
    local_dir := if local_dir = "" then name else local_dir }

/-- `SyncResult` dataclass: `status` is `"up_to_date"`, `"updated"` or
`"error"`; `commit` is present on the two success statuses. -/
structure SyncResult where
  name : String
  status : String
  message : String
  commit : Option String
deriving Repr, DecidableEq

/-- One entry of the `"sources"` object of `.aftr/.state.json`.
Either field may be absent in a hand-written file, hence `Option`. -/
structure SourceState where
  last_commit : Option String
  synced_at : Option String
deriving Repr, DecidableEq

/-- Parsed content of `.aftr/.state.json`: a JSON object that may or may
not carry a `"sources"` key (the code reads it with `state.get("sources", {})`). -/
structure RefsState where
  sources : Option (List (String × SourceState))
deriving Repr, DecidableEq

/-- The state file on disk: absent, present but unparseable
(`json.JSONDecodeError` / `OSError` on read), or present with parsed content. -/
inductive StateFile where
  | absent
  | malformed (raw : String)
  | valid (state : RefsState)
deriving Repr, DecidableEq

/-- `load_refs_state`: `{"sources": {}}` when the file is absent, the same
when parsing raises, otherwise the parsed object.  Total: no error escapes. -/
def load_refs_state : StateFile → RefsState
  | .absent => { sources := some [] }
  | .malformed _ => { sources := some [] }
  | .valid s => s

/-- `save_refs_state`: full overwrite of the state file with the given object. -/
def save_refs_state (s : RefsState) : StateFile :=
  .valid s

/-- One `[[sources]]` table of `.aftr/refs.toml`.  `branch` and `local_dir`
are optional keys (`item.get("branch", "main")`, `item.get("local_dir", item["name"])`). -/
structure TomlSourceItem where
  name : String
  url : String
  path : String
  branch : Option String
  local_dir : Option String
deriving Repr, DecidableEq

/-- The config file on disk: absent, present but failing to read or parse
(the exception propagates to the caller), or present with its parsed
`sources` array (which the document may also lack, read as `doc.get("sources", [])`). -/
inductive ConfigFile where
  | absent
  | unreadable (err : String)
  | present (sources : Option (List TomlSourceItem))
deriving Repr, DecidableEq

/-- Body of the loop of `load_refs_config`: each TOML item becomes a
`RefsSource` with defaults `branch = "main"` and `local_dir = name`. -/
def parse_refs_config (items : Option (List TomlSourceItem)) : List RefsSource :=
  (items.getD []).map (fun item =>
    mkRefsSource item.name item.url item.path
      (item.branch.getD "main") (item.local_dir.getD item.name))

/-- `load_refs_config`: empty list when the file does not exist; a read or
parse failure on an existing file propagates (modelled as `Except.error`). -/
def load_refs_config : ConfigFile → Except String (List RefsSource)
  | .absent => .ok []
  | .unreadable err => .error err
  | .present items => .ok (parse_refs_config items)

/-- `save_refs_config`: serialises every source as a table with `name`,
`url`, `path`, `branch`, and `local_dir` only when it differs from `name`. -/
def save_refs_config (sources : List RefsSource) : ConfigFile :=
  .present (some (sources.map (fun src =>
    { name := src.name, url := src.url, path := src.path,
      branch := some src.branch,
      local_dir := if src.local_dir ≠ src.name then some src.local_dir else none })))

/-- Outcome of one bounded `subprocess.run` of git: zero exit, non-zero
exit with the captured stderr, or `subprocess.TimeoutExpired`. -/
inductive SubprocessResult where
  | ok
  | fail (stderr : String)
  | timedOut
deriving Repr, DecidableEq

/-- A directory tree, as relative file path to file content. -/
abbrev Dir := List (String × String)

/-- The external git world as seen through the subprocess boundary:
`git_available` is `shutil.which("git") is not None`; `ls_remote url branch`
is the SHA parsed from `git ls-remote` (`none` on non-zero exit, empty
output, timeout or `OSError`); `clone url branch` and `sparse_checkout path`
are the two bounded subprocess calls of `sync_source`; `checkout_tree path`
is the content found at `tmpdir/path` after a successful sparse checkout
(`none` when that path does not exist in the repository). -/
structure GitEnv where
  git_available : Bool
  ls_remote : String → String → Option String
  clone : String → String → SubprocessResult
  sparse_checkout : String → SubprocessResult
  checkout_tree : String → Option Dir

/-- `get_remote_commit`: `none` when git is unavailable, otherwise the
outcome of the `git ls-remote` call. -/
def get_remote_commit (env : GitEnv) (url branch : String) : Option String :=
  if env.git_available then env.ls_remote url branch else none

/-- The project files `sync_source` touches: the state file and the mirror
directories `.aftr/<local_dir>/`. -/
structure ProjectFS where
  state_file : StateFile
  mirrors : List (String × Dir)
deriving Repr, DecidableEq

/-- `sync_source(project_dir, source, force)`, with the timestamp
`datetime.now(timezone.utc).isoformat()` passed in as `now`.  Returns the
`SyncResult` together with the project files after the call.  Error
messages are abridged to their leading fixed text. -/
def sync_source (env : GitEnv) (now : String) (fs : ProjectFS)
    (source : RefsSource) (force : Bool) : SyncResult × ProjectFS :=
  if env.git_available = false then
    ({ name := source.name, status := "error",
       message := "git is required for refs sync. Install git and ensure it is on your PATH.",
       commit := none }, fs)
  else
    match get_remote_commit env source.url source.branch with
    | none =>
        ({ name := source.name, status := "error",
           message := "Could not reach remote. Check the URL, branch name, and your network connection.",
           commit := none }, fs)
    | some remote_sha =>
        let state := load_refs_state fs.state_file
        let source_state :=
          (getEntry (state.sources.getD []) source.name).getD
            { last_commit := none, synced_at := none }
        if force = false ∧ source_state.last_commit = some remote_sha then
          ({ name := source.name, status := "up_to_date",
             message := "Already up to date.", commit := some remote_sha }, fs)
        else
          match env.clone source.url source.branch with
          | .timedOut =>
              ({ name := source.name, status := "error",
                 message := "git operation timed out.", commit := none }, fs)
          | .fail stderr =>
              ({ name := source.name, status := "error",
                 message := "git clone failed:\n" ++ stderr, commit := none }, fs)
          | .ok =>
              match env.sparse_checkout source.path with
              | .timedOut =>
                  ({ name := source.name, status := "error",
                     message := "git operation timed out.", commit := none }, fs)
              | .fail stderr =>
                  ({ name := source.name, status := "error",
                     message := "git sparse-checkout failed:\n" ++ stderr,
                     commit := none }, fs)
              | .ok =>
                  match env.checkout_tree source.path with
                  | none =>
                      ({ name := source.name, status := "error",
                         message := "Path not found in repository.",
                         commit := none }, fs)
                  | some content =>
                      let fs1 : ProjectFS :=
                        { fs with
                          mirrors := setEntry fs.mirrors source.local_dir content }
                      let new_state : RefsState :=
                        { sources := some (setEntry (state.sources.getD [])
                            source.name
                            { last_commit := some remote_sha,
                              synced_at := some now }) }
                      ({ name := source.name, status := "updated",
                         message := "Synced successfully.",
                         commit := some remote_sha },
                       { fs1 with state_file := save_refs_state new_state })

/-- The batch loop of the `sync` command (`sync_sources` in `refs_cmd.py`):
run `sync_source` once per target in order, threading the project files,
collecting every result and the `any_error` flag. -/
def sync_sources (env : GitEnv) (now : String) (fs : ProjectFS)
    (targets : List RefsSource) (force : Bool) :
    List SyncResult × ProjectFS × Bool :=
  match targets with
  | [] => ([], fs, false)
  | source :: rest =>
      let res := sync_source env now fs source force
      let tail := sync_sources env now res.2 rest force
      (res.1 :: tail.1, tail.2.1, (res.1.status == "error") || tail.2.2)

/-- After the loop the command raises `typer.Exit(1)` exactly when
`any_error` is set; otherwise it returns normally (exit code 0). -/
def sync_cmd_exit_code (env : GitEnv) (now : String) (fs : ProjectFS)
    (targets : List RefsSource) (force : Bool) : Nat :=
  if (sync_sources env now fs targets force).2.2 then 1 else 0

-- ---------------------------------------------------------------------------
-- `.gitignore` helper, modelled on `List Char` to keep the Python
-- `splitlines` / `strip` / `endswith` semantics explicit.
-- ---------------------------------------------------------------------------

/-- The tracked ignore line `.aftr/.state.json`. -/
def GITIGNORE_ENTRY : List Char := ".aftr/.state.json".toList

/-- Python `str.splitlines()` restricted to `"\n"` terminators: every
newline ends a line, and a final segment without a newline is kept. -/
def splitLinesChars : List Char → List (List Char)
  | [] => []
  | c :: cs =>
      if c = '\n' then [] :: splitLinesChars cs
      else
        match splitLinesChars cs with
        | [] => [[c]]
        | l :: ls => (c :: l) :: ls

/-- Python `str.strip()` (ASCII whitespace). -/
def stripChars (l : List Char) : List Char :=
  ((l.dropWhile Char.isWhitespace).reverse.dropWhile Char.isWhitespace).reverse

/-- `ensure_gitignore`: create the file with the tracked line when absent;
otherwise return it unchanged when some line strips to the tracked entry,
else append the entry (preceded by a newline when the existing content is
non-empty and does not end in one). -/
def ensure_gitignore (file : Option (List Char)) : List Char :=
  match file with
  | some content =>
      let lines := splitLinesChars content
      if lines.any (fun line => stripChars line == GITIGNORE_ENTRY) then content
      else
        let separator :=
          if content ≠ [] ∧ content.getLast? ≠ some '\n' then ['\n'] else []
        content ++ separator ++ GITIGNORE_ENTRY ++ ['\n']
  | none => GITIGNORE_ENTRY ++ ['\n']

/-- `N` successive calls of `ensure_gitignore`, each call seeing the file
the previous call wrote. -/
def ensure_gitignore_iter : Nat → Option (List Char) → Option (List Char)
  | 0, file => file
  | n + 1, file => ensure_gitignore_iter n (some (ensure_gitignore file))

/-- Number of lines of a file that strip to the tracked ignore entry. -/
def entryLineCount (content : List Char) : Nat :=
  (splitLinesChars content).countP (fun line => stripChars line == GITIGNORE_ENTRY)

-- ---------------------------------------------------------------------------
-- Concrete values used by the witnesses
-- ---------------------------------------------------------------------------

/-- A concrete checked-out tree. -/
def demoContent : Dir := [("guide.md", "hello")]

/-- A concrete git environment where every operation succeeds and the
remote head is `"abc123"`. -/
def demoEnv : GitEnv :=
  { git_available := true,
    ls_remote := fun _ _ => some "abc123",
    clone := fun _ _ => SubprocessResult.ok,
    sparse_checkout := fun _ => SubprocessResult.ok,
    checkout_tree := fun _ => some demoContent }

/-- The same environment with the git executable missing. -/
def demoEnvNoGit : GitEnv := { demoEnv with git_available := false }

/-- A concrete registered source. -/
def demoSource : RefsSource :=
  mkRefsSource "guides" "https://example.com/repo.git" "docs/guides" "main" ""

/-- A fresh project: no state file, no mirrors. -/
def demoFS : ProjectFS := { state_file := StateFile.absent, mirrors := [] }

/-- A project whose recorded state for `"guides"` matches the remote head
of `demoEnv`, with a second unrelated entry. -/
def demoFSSynced : ProjectFS :=
  { state_file := StateFile.valid
      { sources := some
          [("guides", { last_commit := some "abc123", synced_at := some "t0" }),
           ("api", { last_commit := some "zzz", synced_at := some "t0" })] },
    mirrors := [("guides", demoContent)] }

-- ---------------------------------------------------------------------------
-- Dictionary lemmas
-- ---------------------------------------------------------------------------

theorem find?_map_set {α : Type} (l : List (String × α)) (k : String) (v : α)
    (h : l.any (fun p => p.1 == k) = true) :
    (l.map (fun p => if p.1 == k then (k, v) else p)).find?
      (fun p => p.1 == k) = some (k, v) := by
  induction l with
  | nil => simp at h
  | cons p rest ih =>
      by_cases hp : (p.1 == k) = true
      · rw [List.map_cons, if_pos hp]
        exact List.find?_cons_of_pos _ (by simp)
      · simp only [List.any_cons, Bool.or_eq_true] at h
        rw [List.map_cons, if_neg hp,
          List.find?_cons_of_neg (p := fun q : String × α => q.1 == k) _ hp]
        exact ih (h.resolve_left hp)

theorem find?_append_single {α : Type} (l : List (String × α)) (k : String)
    (v : α) (h : l.any (fun p => p.1 == k) = false) :
    (l ++ [(k, v)]).find? (fun p => p.1 == k) = some (k, v) := by
  induction l with
  | nil =>
      rw [List.nil_append]
      exact List.find?_cons_of_pos _ (by simp)
  | cons p rest ih =>
      simp only [List.any_cons, Bool.or_eq_false_iff] at h
      rw [List.cons_append,
        List.find?_cons_of_neg (p := fun q : String × α => q.1 == k) _ (by simp [h.1])]
      exact ih h.2

theorem find?_map_set_other {α : Type} (l : List (String × α))
    (k k' : String) (v : α) (h : k' ≠ k) :
    (l.map (fun p => if p.1 == k then (k, v) else p)).find?
      (fun p => p.1 == k') = l.find? (fun p => p.1 == k') := by
  have hkk' : ¬ (k = k') := fun e => h e.symm
  induction l with
  | nil => rfl
  | cons p rest ih =>
      by_cases hp : (p.1 == k) = true
      · have hpk : p.1 = k := by simpa using hp
        rw [List.map_cons, if_pos hp,
          List.find?_cons_of_neg (p := fun q : String × α => q.1 == k') _ (by simpa using hkk'),
          List.find?_cons_of_neg (p := fun q : String × α => q.1 == k') _ (by simpa [hpk] using hkk'),
          ih]
      · rw [List.map_cons, if_neg hp]
        by_cases hq : (p.1 == k') = true
        · rw [List.find?_cons_of_pos (p := fun q : String × α => q.1 == k') _ hq,
            List.find?_cons_of_pos (p := fun q : String × α => q.1 == k') _ hq]
        · rw [List.find?_cons_of_neg (p := fun q : String × α => q.1 == k') _ hq,
            List.find?_cons_of_neg (p := fun q : String × α => q.1 == k') _ hq, ih]

theorem find?_append_single_other {α : Type} (l : List (String × α))
    (k k' : String) (v : α) (h : k' ≠ k) :
    (l ++ [(k, v)]).find? (fun p => p.1 == k') =
      l.find? (fun p => p.1 == k') := by
  have hkk' : ¬ (k = k') := fun e => h e.symm
  induction l with
  | nil =>
      rw [List.nil_append,
        List.find?_cons_of_neg (p := fun q : String × α => q.1 == k') _ (by simpa using hkk')]
  | cons p rest ih =>
      by_cases hq : (p.1 == k') = true
      · rw [List.cons_append, List.find?_cons_of_pos (p := fun q : String × α => q.1 == k') _ hq,
          List.find?_cons_of_pos (p := fun q : String × α => q.1 == k') _ hq]
      · rw [List.cons_append, List.find?_cons_of_neg (p := fun q : String × α => q.1 == k') _ hq,
          List.find?_cons_of_neg (p := fun q : String × α => q.1 == k') _ hq, ih]

theorem getEntry_setEntry_self {α : Type} (l : List (String × α)) (k : String)
    (v : α) : getEntry (setEntry l k v) k = some v := by
  unfold getEntry setEntry
  split
  · rename_i h
    rw [find?_map_set l k v h]
    rfl
  · rename_i h
    rw [find?_append_single l k v (Bool.eq_false_iff.mpr h)]
    rfl

theorem getEntry_setEntry_ne {α : Type} (l : List (String × α)) (k k' : String)
    (v : α) (h : k' ≠ k) : getEntry (setEntry l k v) k' = getEntry l k' := by
  unfold getEntry setEntry
  split
  · rw [find?_map_set_other l k k' v h]
  · rw [find?_append_single_other l k k' v h]

-- ---------------------------------------------------------------------------
-- Case analysis of `sync_source`
-- ---------------------------------------------------------------------------

/-- Every `sync_source` call falls into exactly one of three shapes:
an error that leaves the project files untouched; an up-to-date
short-circuit (only without `force`, only when the recorded commit equals
the remote head) that also leaves them untouched; or an update that
rewrites the mirror directory and the state entry of this source. -/
theorem sync_source_cases (env : GitEnv) (now : String) (fs : ProjectFS)
    (source : RefsSource) (force : Bool) :
    ((sync_source env now fs source force).1.status = "error" ∧
      (sync_source env now fs source force).2 = fs) ∨
    ((sync_source env now fs source force).1.status = "up_to_date" ∧
      (sync_source env now fs source force).2 = fs ∧
      force = false ∧
      ∃ sha, env.git_available = true ∧
        env.ls_remote source.url source.branch = some sha ∧
        (sync_source env now fs source force).1.commit = some sha ∧
        ((getEntry ((load_refs_state fs.state_file).sources.getD [])
            source.name).getD
          { last_commit := none, synced_at := none }).last_commit = some sha) ∨
    ((sync_source env now fs source force).1.status = "updated" ∧
      ∃ sha content, env.git_available = true ∧
        env.ls_remote source.url source.branch = some sha ∧
        env.clone source.url source.branch = SubprocessResult.ok ∧
        env.sparse_checkout source.path = SubprocessResult.ok ∧
        env.checkout_tree source.path = some content ∧
        (sync_source env now fs source force).1.commit = some sha ∧
        (sync_source env now fs source force).2 =
          { state_file := StateFile.valid
              { sources := some (setEntry
                  ((load_refs_state fs.state_file).sources.getD [])
                  source.name
                  { last_commit := some sha, synced_at := some now }) },
            mirrors := setEntry fs.mirrors source.local_dir content }) := by
  cases hg : env.git_available with
  | false => left; simp [sync_source, hg]
  | true =>
      cases hr : env.ls_remote source.url source.branch with
      | none => left; simp [sync_source, get_remote_commit, hg, hr]
      | some sha =>
          by_cases hup : force = false ∧
              ((getEntry ((load_refs_state fs.state_file).sources.getD [])
                  source.name).getD
                { last_commit := none, synced_at := none }).last_commit =
                some sha
          · right; left
            simp [sync_source, get_remote_commit, hg, hr, hup.1, hup.2]
          · cases hc : env.clone source.url source.branch with
            | timedOut =>
                left; simp [sync_source, get_remote_commit, hg, hr, hup, hc]
            | fail stderr =>
                left; simp [sync_source, get_remote_commit, hg, hr, hup, hc]
            | ok =>
                cases hs : env.sparse_checkout source.path with
                | timedOut =>
                    left
                    simp [sync_source, get_remote_commit, hg, hr, hup, hc, hs]
                | fail stderr =>
                    left
                    simp [sync_source, get_remote_commit, hg, hr, hup, hc, hs]
                | ok =>
                    cases ht : env.checkout_tree source.path with
                    | none =>
                        left
                        simp [sync_source, get_remote_commit, hg, hr, hup, hc,
                          hs, ht]
                    | some content =>
                        right; right
                        simp [sync_source, get_remote_commit, hg, hr, hup, hc,
                          hs, ht, save_refs_state]

/-- The result of `sync_source` always reports the name of the source it
was called on. -/
theorem sync_source_name (env : GitEnv) (now : String) (fs : ProjectFS)
    (source : RefsSource) (force : Bool) :
    (sync_source env now fs source force).1.name = source.name := by
  cases hg : env.git_available with
  | false => simp [sync_source, hg]
  | true =>
      cases hr : env.ls_remote source.url source.branch with
      | none => simp [sync_source, get_remote_commit, hg, hr]
      | some sha =>
          by_cases hup : force = false ∧
              ((getEntry ((load_refs_state fs.state_file).sources.getD [])
                  source.name).getD
                { last_commit := none, synced_at := none }).last_commit =
                some sha
          · simp [sync_source, get_remote_commit, hg, hr, hup.1, hup.2]
          · cases hc : env.clone source.url source.branch with
            | timedOut =>
                simp [sync_source, get_remote_commit, hg, hr, hup, hc]
            | fail stderr =>
                simp [sync_source, get_remote_commit, hg, hr, hup, hc]
            | ok =>
                cases hs : env.sparse_checkout source.path with
                | timedOut =>
                    simp [sync_source, get_remote_commit, hg, hr, hup, hc, hs]
                | fail stderr =>
                    simp [sync_source, get_remote_commit, hg, hr, hup, hc, hs]
                | ok =>
                    cases ht : env.checkout_tree source.path with
                    | none =>
                        simp [sync_source, get_remote_commit, hg, hr, hup, hc,
                          hs, ht]
                    | some content =>
                        simp [sync_source, get_remote_commit, hg, hr, hup, hc,
                          hs, ht]

-- ---------------------------------------------------------------------------
-- Theorems
-- ---------------------------------------------------------------------------

/-- Claim C8: `load_refs_state` yields the empty-sources mapping
`{"sources": {}}` both when the state file is absent and when its content
is malformed; being a total function into `RefsState`, it never surfaces
either condition as an error. -/
theorem load_refs_state_resilient (raw : String) :
    load_refs_state StateFile.absent = { sources := some [] } ∧
    load_refs_state (StateFile.malformed raw) = { sources := some [] } :=
  ⟨rfl, rfl⟩

/-- Claim C9: `load_refs_config` returns the empty list when no config file
exists, and produces an error exactly when the file exists but reading or
parsing it fails — never for a merely absent file. -/
theorem load_refs_config_absent_empty :
    load_refs_config ConfigFile.absent = Except.ok [] ∧
    ∀ (f : ConfigFile) (e : String),
      load_refs_config f = Except.error e → f = ConfigFile.unreadable e := by
  refine ⟨rfl, ?_⟩
  intro f e h
  cases f with
  | absent => simp [load_refs_config] at h
  | unreadable err => simp [load_refs_config] at h; simp [h]
  | present items => simp [load_refs_config] at h

/-- Witness for C9 at a concrete file. -/
theorem load_refs_config_absent_empty_witness :
    ConfigFile.unreadable "boom" = ConfigFile.unreadable "boom" :=
  load_refs_config_absent_empty.2 (ConfigFile.unreadable "boom") "boom" rfl

/-- Claim C6: Saving any list of `RefsSource` values and loading it back
yields an equal list (same `name`, `url`, `path`, `branch`, `local_dir`,
same order).  The hypothesis records the `__post_init__` invariant every
constructed `RefsSource` satisfies: `local_dir` is empty only when `name`
is (an unset `local_dir` is replaced by `name` at construction). -/
theorem refs_config_round_trip (sources : List RefsSource)
    (hwf : ∀ s ∈ sources, s.local_dir = "" → s.name = "") :
    load_refs_config (save_refs_config sources) = Except.ok sources := by
  simp only [load_refs_config, save_refs_config, parse_refs_config,
    Option.getD_some, List.map_map, Except.ok.injEq]
  induction sources with
  | nil => rfl
  | cons s rest ih =>
      have hs := hwf s (List.mem_cons_self s rest)
      have hrest : ∀ x ∈ rest, x.local_dir = "" → x.name = "" :=
        fun x hx => hwf x (List.mem_cons_of_mem s hx)
      simp only [List.map_cons, List.cons.injEq]
      refine ⟨?_, ih hrest⟩
      simp only [Function.comp, mkRefsSource]
      by_cases hld : s.local_dir = s.name
      · cases s with
        | mk n u p b ld => simp_all
      · by_cases hempty : s.local_dir = ""
        · exact absurd (hempty.trans (hs hempty).symm) hld
        · cases s with
          | mk n u p b ld => simp_all

/-- Witness for C6 at a concrete two-element list. -/
theorem refs_config_round_trip_witness :
    load_refs_config (save_refs_config
      [mkRefsSource "guides" "https://example.com/r.git" "docs/guides" "main" "",
       mkRefsSource "api" "https://example.com/r.git" "docs/api" "dev" "refs-api"]) =
    Except.ok
      [mkRefsSource "guides" "https://example.com/r.git" "docs/guides" "main" "",
       mkRefsSource "api" "https://example.com/r.git" "docs/api" "dev" "refs-api"] :=
  refs_config_round_trip _ (by decide)

-- ---------------------------------------------------------------------------
-- Claim theorems about `sync_source`
-- ---------------------------------------------------------------------------

/-- Claim C1: When the recorded `last_commit` of the source equals the remote
branch head and `force` is false, `sync_source` returns `"up_to_date"`
carrying that hash, leaves the project files (hence the sync state)
untouched, and performs no fetch: its outcome is independent of the
clone / sparse-checkout / checked-out-tree fields of the environment.
Consequently syncing the unchanged source a second time again yields
`"up_to_date"` and again leaves the state unchanged. -/
theorem sync_source_up_to_date_short_circuit
    (env : GitEnv) (now : String) (fs : ProjectFS) (source : RefsSource)
    (sha : String)
    (hgit : env.git_available = true)
    (hremote : env.ls_remote source.url source.branch = some sha)
    (hstate : ((getEntry ((load_refs_state fs.state_file).sources.getD [])
        source.name).getD
      { last_commit := none, synced_at := none }).last_commit = some sha) :
    (sync_source env now fs source false).1.status = "up_to_date" ∧
    (sync_source env now fs source false).1.commit = some sha ∧
    (sync_source env now fs source false).2 = fs ∧
    (∀ (c : String → String → SubprocessResult)
        (s : String → SubprocessResult) (t : String → Option Dir),
      sync_source
          { env with clone := c, sparse_checkout := s, checkout_tree := t }
          now fs source false
        = sync_source env now fs source false) ∧
    (∀ now' : String,
      (sync_source env now' (sync_source env now fs source false).2
          source false).1.status = "up_to_date" ∧
      (sync_source env now' (sync_source env now fs source false).2
          source false).2 = (sync_source env now fs source false).2) := by
  have key : ∀ (e : GitEnv), e.git_available = true →
      e.ls_remote source.url source.branch = some sha →
      ∀ n : String, sync_source e n fs source false =
        ({ name := source.name, status := "up_to_date",
           message := "Already up to date.", commit := some sha }, fs) := by
    intro e hg hr n
    simp [sync_source, get_remote_commit, hg, hr, hstate]
  refine ⟨?_, ?_, ?_, ?_, ?_⟩
  · rw [key env hgit hremote now]
  · rw [key env hgit hremote now]
  · rw [key env hgit hremote now]
  · intro c s t
    rw [key env hgit hremote now,
      key { env with clone := c, sparse_checkout := s, checkout_tree := t }
        hgit hremote now]
  · intro now'
    rw [key env hgit hremote now]
    rw [key env hgit hremote now']
    exact ⟨rfl, rfl⟩

/-- Witness for C1: on a project whose recorded commit for `"guides"`
equals the remote head, the sync is `"up_to_date"` and writes nothing. -/
theorem sync_source_up_to_date_short_circuit_witness :
    (sync_source demoEnv "t1" demoFSSynced demoSource false).1.status
      = "up_to_date" ∧
    (sync_source demoEnv "t1" demoFSSynced demoSource false).2
      = demoFSSynced :=
  ⟨(sync_source_up_to_date_short_circuit demoEnv "t1" demoFSSynced demoSource
      "abc123" rfl rfl (by decide)).1,
   (sync_source_up_to_date_short_circuit demoEnv "t1" demoFSSynced demoSource
      "abc123" rfl rfl (by decide)).2.2.1⟩

/-- Claim C2: Whenever `sync_source` reports `"error"` — whatever the cause —
the project files are exactly what they were: the parsed state is
unchanged, and every source keeps the entry (or absence of one) it had. -/
theorem sync_source_error_preserves_state
    (env : GitEnv) (now : String) (fs : ProjectFS) (source : RefsSource)
    (force : Bool)
    (h : (sync_source env now fs source force).1.status = "error") :
    (sync_source env now fs source force).2 = fs ∧
    load_refs_state (sync_source env now fs source force).2.state_file
      = load_refs_state fs.state_file ∧
    (∀ n : String,
      getEntry ((load_refs_state
          (sync_source env now fs source force).2.state_file).sources.getD []) n
        = getEntry ((load_refs_state fs.state_file).sources.getD []) n) := by
  rcases sync_source_cases env now fs source force with
    ⟨_, hfs⟩ | ⟨hst, _⟩ | ⟨hst, _⟩
  · exact ⟨hfs, by rw [hfs], fun n => by rw [hfs]⟩
  · exact absurd (hst.symm.trans h) (by decide)
  · exact absurd (hst.symm.trans h) (by decide)

/-- Witness for C2: without a git executable the sync errors and the fresh
project is untouched. -/
theorem sync_source_error_preserves_state_witness :
    (sync_source demoEnvNoGit "t1" demoFS demoSource false).2 = demoFS :=
  (sync_source_error_preserves_state demoEnvNoGit "t1" demoFS demoSource false
    (by decide)).1

/-- Claim C3: With the recorded commit equal to the remote head, `force=true`
does not take the up-to-date short-circuit: the fetch outcome now matters
(a timed-out clone turns the call into an error), and when the fetch
succeeds the call returns `"updated"` with the same hash, rewriting the
state entry of the source: `synced_at` becomes the timestamp of this call
and `last_commit` is still the remote head. -/
theorem sync_source_force_bypass
    (env : GitEnv) (now : String) (fs : ProjectFS) (source : RefsSource)
    (sha : String) (content : Dir)
    (hgit : env.git_available = true)
    (hremote : env.ls_remote source.url source.branch = some sha)
    (hstate : ((getEntry ((load_refs_state fs.state_file).sources.getD [])
        source.name).getD
      { last_commit := none, synced_at := none }).last_commit = some sha)
    (hclone : env.clone source.url source.branch = SubprocessResult.ok)
    (hcheckout : env.sparse_checkout source.path = SubprocessResult.ok)
    (htree : env.checkout_tree source.path = some content) :
    (sync_source env now fs source true).1.status = "updated" ∧
    (sync_source env now fs source true).1.commit = some sha ∧
    (∃ l, (sync_source env now fs source true).2.state_file
        = StateFile.valid { sources := some l } ∧
      getEntry l source.name
        = some { last_commit := some sha, synced_at := some now }) ∧
    (sync_source { env with clone := fun _ _ => SubprocessResult.timedOut }
        now fs source true).1.status = "error" := by
  have key : sync_source env now fs source true =
      ({ name := source.name, status := "updated",
         message := "Synced successfully.", commit := some sha },
       { state_file := StateFile.valid
           { sources := some (setEntry
               ((load_refs_state fs.state_file).sources.getD []) source.name
               { last_commit := some sha, synced_at := some now }) },
         mirrors := setEntry fs.mirrors source.local_dir content }) := by
    simp [sync_source, get_remote_commit, hgit, hremote, hclone, hcheckout,
      htree, save_refs_state]
  refine ⟨by rw [key], by rw [key], ?_, ?_⟩
  · refine ⟨setEntry ((load_refs_state fs.state_file).sources.getD [])
      source.name { last_commit := some sha, synced_at := some now },
      by rw [key], getEntry_setEntry_self _ _ _⟩
  · simp [sync_source, get_remote_commit, hgit, hremote]

/-- Witness for C3: forcing a sync of an already up-to-date source yields
`"updated"`. -/
theorem sync_source_force_bypass_witness :
    (sync_source demoEnv "t1" demoFSSynced demoSource true).1.status
      = "updated" :=
  (sync_source_force_bypass demoEnv "t1" demoFSSynced demoSource "abc123"
    demoContent rfl rfl (by decide) rfl rfl rfl).1

/-- Claim C4: After a sync that returns `"updated"`, the mirror directory
`.aftr/<local_dir>` holds exactly the freshly checked-out tree: the old
directory is replaced wholesale, so any file absent from the new fetch no
longer exists in the mirror. -/
theorem sync_source_replace_not_merge
    (env : GitEnv) (now : String) (fs : ProjectFS) (source : RefsSource)
    (force : Bool)
    (h : (sync_source env now fs source force).1.status = "updated") :
    ∃ content, env.checkout_tree source.path = some content ∧
      getEntry (sync_source env now fs source force).2.mirrors source.local_dir
        = some content ∧
      (∀ (d : Dir) (fname : String),
        getEntry (sync_source env now fs source force).2.mirrors
            source.local_dir = some d →
        getEntry content fname = none → getEntry d fname = none) := by
  rcases sync_source_cases env now fs source force with
    ⟨hst, _⟩ | ⟨hst, _⟩ | ⟨_, sha, content, _, _, _, _, ht, _, hfs⟩
  · exact absurd (hst.symm.trans h) (by decide)
  · exact absurd (hst.symm.trans h) (by decide)
  · refine ⟨content, ht, ?_, ?_⟩
    · rw [hfs]
      exact getEntry_setEntry_self _ _ _
    · intro d fname hd hnone
      rw [hfs] at hd
      rw [getEntry_setEntry_self _ _ _] at hd
      cases hd
      exact hnone

/-- Witness for C4: the first sync of a fresh project is `"updated"` and
its mirror equals the checked-out tree. -/
theorem sync_source_replace_not_merge_witness :
    ∃ content, demoEnv.checkout_tree demoSource.path = some content ∧
      getEntry (sync_source demoEnv "t1" demoFS demoSource false).2.mirrors
        demoSource.local_dir = some content ∧
      (∀ (d : Dir) (fname : String),
        getEntry (sync_source demoEnv "t1" demoFS demoSource false).2.mirrors
            demoSource.local_dir = some d →
        getEntry content fname = none → getEntry d fname = none) :=
  sync_source_replace_not_merge demoEnv "t1" demoFS demoSource false (by decide)

/-- Claim C10: A sync of source X returning `"updated"` rewrites the state
file so that the entry of X carries the new commit and the timestamp of
this call, while the entry (or absence of one) of every other source is
exactly what the old state file held. -/
theorem sync_source_updated_frame
    (env : GitEnv) (now : String) (fs : ProjectFS) (source : RefsSource)
    (force : Bool)
    (h : (sync_source env now fs source force).1.status = "updated") :
    ∃ l, (sync_source env now fs source force).2.state_file
        = StateFile.valid { sources := some l } ∧
      (∃ sha, getEntry l source.name
        = some { last_commit := some sha, synced_at := some now }) ∧
      (∀ k : String, k ≠ source.name →
        getEntry l k
          = getEntry ((load_refs_state fs.state_file).sources.getD []) k) := by
  rcases sync_source_cases env now fs source force with
    ⟨hst, _⟩ | ⟨hst, _⟩ | ⟨_, sha, content, _, _, _, _, _, _, hfs⟩
  · exact absurd (hst.symm.trans h) (by decide)
  · exact absurd (hst.symm.trans h) (by decide)
  · refine ⟨setEntry ((load_refs_state fs.state_file).sources.getD [])
        source.name { last_commit := some sha, synced_at := some now },
      by rw [hfs], ⟨sha, getEntry_setEntry_self _ _ _⟩, ?_⟩
    intro k hk
    exact getEntry_setEntry_ne _ _ _ _ hk

/-- Witness for C10: update of `"guides"` on a project that also tracks
`"api"`. -/
theorem sync_source_updated_frame_witness :
    ∃ l, (sync_source demoEnv "t1" demoFSSynced demoSource true).2.state_file
        = StateFile.valid { sources := some l } ∧
      (∃ sha, getEntry l demoSource.name
        = some { last_commit := some sha, synced_at := some "t1" }) ∧
      (∀ k : String, k ≠ demoSource.name →
        getEntry l k
          = getEntry ((load_refs_state demoFSSynced.state_file).sources.getD [])
              k) :=
  sync_source_updated_frame demoEnv "t1" demoFSSynced demoSource true
    (by decide)

-- ---------------------------------------------------------------------------
-- Batch driver
-- ---------------------------------------------------------------------------

/-- The batch loop attempts every target in order (one result per target,
reporting the name of that target) and the `any_error` flag is set exactly
when some attempted source produced an `"error"` result. -/
theorem sync_sources_spec (env : GitEnv) (now : String) (fs : ProjectFS)
    (targets : List RefsSource) (force : Bool) :
    (sync_sources env now fs targets force).1.length = targets.length ∧
    (∀ (i : Nat) (h1 : i < (sync_sources env now fs targets force).1.length)
        (h2 : i < targets.length),
      ((sync_sources env now fs targets force).1.get ⟨i, h1⟩).name
        = (targets.get ⟨i, h2⟩).name) ∧
    ((sync_sources env now fs targets force).2.2 = true ↔
      ∃ r ∈ (sync_sources env now fs targets force).1, r.status = "error") := by
  induction targets generalizing fs with
  | nil => simp [sync_sources]
  | cons t ts ih =>
      obtain ⟨ihlen, ihname, ihany⟩ := ih (sync_source env now fs t force).2
      refine ⟨?_, ?_, ?_⟩
      · simp [sync_sources, ihlen]
      · intro i h1 h2
        cases i with
        | zero => simpa [sync_sources] using sync_source_name env now fs t force
        | succ j =>
            have h1' : j < (sync_sources env now
                (sync_source env now fs t force).2 ts force).1.length := by
              simpa [sync_sources] using h1
            have h2' : j < ts.length := by simpa using h2
            simpa [sync_sources] using ihname j h1' h2'
      · simp only [sync_sources, List.mem_cons, Bool.or_eq_true, beq_iff_eq]
        constructor
        · rintro (he | ha)
          · exact ⟨_, Or.inl rfl, he⟩
          · obtain ⟨r, hr, hre⟩ := ihany.mp ha
            exact ⟨r, Or.inr hr, hre⟩
        · rintro ⟨r, hr | hr, hre⟩
          · cases hr
            exact Or.inl hre
          · exact Or.inr (ihany.mpr ⟨r, hr, hre⟩)

/-- Claim C5: an `"error"` result for one source does not stop the batch: every
target is attempted in order (the loop is total, nothing is raised out of
it, one result per target) — and the sync command exits with failure if
and only if at least one attempted source produced an `"error"` result,
even when other sources succeeded. -/
theorem sync_cmd_failure_isolation (env : GitEnv) (now : String)
    (fs : ProjectFS) (targets : List RefsSource) (force : Bool) :
    (sync_sources env now fs targets force).1.length = targets.length ∧
    (∀ (i : Nat) (h1 : i < (sync_sources env now fs targets force).1.length)
        (h2 : i < targets.length),
      ((sync_sources env now fs targets force).1.get ⟨i, h1⟩).name
        = (targets.get ⟨i, h2⟩).name) ∧
    (sync_cmd_exit_code env now fs targets force ≠ 0 ↔
      ∃ r ∈ (sync_sources env now fs targets force).1, r.status = "error") := by
  obtain ⟨hlen, hname, hany⟩ := sync_sources_spec env now fs targets force
  refine ⟨hlen, hname, ?_⟩
  rw [← hany]
  unfold sync_cmd_exit_code
  by_cases hb : (sync_sources env now fs targets force).2.2 = true
  · simp [hb]
  · simp [hb]

/-- Witness for C5: a two-source batch where the first source fails
(unreachable remote) and the second succeeds still attempts both, and the
command exits with failure. -/
theorem sync_cmd_failure_isolation_witness :
    (sync_sources { demoEnv with
        ls_remote := fun _ b => if b = "main" then some "abc123" else none }
      "t1" demoFS
      [mkRefsSource "bad" "u" "p" "nope" "", demoSource] false).1.length
      = [mkRefsSource "bad" "u" "p" "nope" "", demoSource].length ∧
    (sync_cmd_exit_code { demoEnv with
        ls_remote := fun _ b => if b = "main" then some "abc123" else none }
      "t1" demoFS
      [mkRefsSource "bad" "u" "p" "nope" "", demoSource] false ≠ 0 ↔
      ∃ r ∈ (sync_sources { demoEnv with
          ls_remote := fun _ b => if b = "main" then some "abc123" else none }
        "t1" demoFS
        [mkRefsSource "bad" "u" "p" "nope" "", demoSource] false).1,
        r.status = "error") :=
  ⟨(sync_cmd_failure_isolation _ "t1" demoFS _ false).1,
   (sync_cmd_failure_isolation _ "t1" demoFS _ false).2.2⟩

-- ---------------------------------------------------------------------------
-- `.gitignore` idempotence
-- ---------------------------------------------------------------------------

theorem splitLines_cons (c : Char) (cs : List Char) :
    splitLinesChars (c :: cs) =
      if c = '\n' then [] :: splitLinesChars cs
      else
        match splitLinesChars cs with
        | [] => [[c]]
        | l :: ls => (c :: l) :: ls := rfl

theorem splitLines_ne_nil (s : List Char) (h : s ≠ []) :
    splitLinesChars s ≠ [] := by
  cases s with
  | nil => exact absurd rfl h
  | cons c cs =>
      rw [splitLines_cons]
      split
      · simp
      · split <;> simp

theorem splitLines_append_of_last_newline (c x : List Char)
    (h : c.getLast? = some '\n') :
    splitLinesChars (c ++ x) = splitLinesChars c ++ splitLinesChars x := by
  induction c with
  | nil => simp at h
  | cons ch cs ih =>
      cases cs with
      | nil =>
          have hch : ch = '\n' := by simpa using h
          subst hch
          simp [splitLinesChars]
      | cons d ds =>
          have h' : (d :: ds).getLast? = some '\n' := by
            simpa [List.getLast?_cons_cons] using h
          rw [List.cons_append, splitLines_cons ch (d :: ds ++ x),
            splitLines_cons ch (d :: ds), ih h']
          obtain ⟨l, ls, hl⟩ : ∃ l ls, splitLinesChars (d :: ds) = l :: ls := by
            cases hq : splitLinesChars (d :: ds) with
            | nil => exact absurd hq (splitLines_ne_nil _ (by simp))
            | cons l ls => exact ⟨l, ls, rfl⟩
          rw [hl]
          by_cases hch : ch = '\n'
          · rw [if_pos hch, if_pos hch]
            rfl
          · rw [if_neg hch, if_neg hch]
            rfl

theorem splitLines_append_newline_of_last_ne (c : List Char) (h0 : c ≠ [])
    (h : c.getLast? ≠ some '\n') :
    splitLinesChars (c ++ ['\n']) = splitLinesChars c := by
  induction c with
  | nil => exact absurd rfl h0
  | cons ch cs ih =>
      cases cs with
      | nil =>
          have hch : ch ≠ '\n' := by simpa using h
          simp [splitLinesChars, hch]
      | cons d ds =>
          have h' : (d :: ds).getLast? ≠ some '\n' := by
            simpa [List.getLast?_cons_cons] using h
          have ihh := ih (by simp) h'
          rw [List.cons_append, splitLines_cons ch (d :: ds ++ ['\n']),
            splitLines_cons ch (d :: ds), ihh]

theorem ensure_some (content : List Char) :
    ensure_gitignore (some content) =
      if (splitLinesChars content).any
          (fun line => stripChars line == GITIGNORE_ENTRY) then content
      else content ++
        (if content ≠ [] ∧ content.getLast? ≠ some '\n' then ['\n'] else []) ++
        GITIGNORE_ENTRY ++ ['\n'] := rfl

theorem ensure_result_lines (content : List Char)
    (hany : (splitLinesChars content).any
      (fun line => stripChars line == GITIGNORE_ENTRY) = false) :
    splitLinesChars (ensure_gitignore (some content)) =
      splitLinesChars content ++ [GITIGNORE_ENTRY] := by
  by_cases h0 : content = []
  · subst h0
    simp [ensure_gitignore]
    decide
  · by_cases hlast : content.getLast? = some '\n'
    · have heq : ensure_gitignore (some content) =
          content ++ (GITIGNORE_ENTRY ++ ['\n']) := by
        rw [ensure_some, if_neg (by simp [hany])]
        simp [hlast]
      rw [heq, splitLines_append_of_last_newline _ _ hlast]
      congr 1
    · have heq : ensure_gitignore (some content) =
          (content ++ ['\n']) ++ (GITIGNORE_ENTRY ++ ['\n']) := by
        rw [ensure_some, if_neg (by simp [hany])]
        simp [h0, hlast]
      rw [heq,
        splitLines_append_of_last_newline _ _ (List.getLast?_concat content),
        splitLines_append_newline_of_last_ne content h0 hlast]
      congr 1

theorem ensure_contains (file : Option (List Char)) :
    (splitLinesChars (ensure_gitignore file)).any
      (fun line => stripChars line == GITIGNORE_ENTRY) = true := by
  cases file with
  | none => decide
  | some content =>
      by_cases hany : (splitLinesChars content).any
          (fun line => stripChars line == GITIGNORE_ENTRY) = true
      · rw [ensure_some, if_pos hany]
        exact hany
      · have hf : (splitLinesChars content).any
            (fun line => stripChars line == GITIGNORE_ENTRY) = false :=
          Bool.eq_false_iff.mpr hany
        rw [ensure_result_lines content hf, List.any_append]
        have h1 : ([GITIGNORE_ENTRY] : List (List Char)).any
            (fun line => stripChars line == GITIGNORE_ENTRY) = true := by decide
        rw [h1, Bool.or_true]

theorem ensure_ensure (file : Option (List Char)) :
    ensure_gitignore (some (ensure_gitignore file)) = ensure_gitignore file := by
  rw [ensure_some, if_pos (ensure_contains file)]

theorem ensure_iter_succ (n : Nat) (file : Option (List Char)) :
    ensure_gitignore_iter (n + 1) file = some (ensure_gitignore file) := by
  induction n generalizing file with
  | zero => rfl
  | succ m ih =>
      show ensure_gitignore_iter (m + 1) (some (ensure_gitignore file)) = _
      rw [ih (some (ensure_gitignore file)), ensure_ensure]

theorem ensure_count (content : List Char) :
    entryLineCount (ensure_gitignore (some content)) =
      if entryLineCount content = 0 then 1 else entryLineCount content := by
  by_cases hany : (splitLinesChars content).any
      (fun line => stripChars line == GITIGNORE_ENTRY) = true
  · rw [ensure_some, if_pos hany]
    have hpos : 0 < entryLineCount content := by
      unfold entryLineCount
      rw [List.countP_pos_iff]
      exact List.any_eq_true.mp hany
    rw [if_neg (by omega)]
  · have hf : (splitLinesChars content).any
        (fun line => stripChars line == GITIGNORE_ENTRY) = false :=
      Bool.eq_false_iff.mpr hany
    unfold entryLineCount
    rw [ensure_result_lines content hf, List.countP_append]
    have hzero : (splitLinesChars content).countP
        (fun line => stripChars line == GITIGNORE_ENTRY) = 0 := by
      rw [List.countP_eq_zero]
      intro a ha hpa
      exact hany (List.any_eq_true.mpr ⟨a, ha, hpa⟩)
    have h1 : ([GITIGNORE_ENTRY] : List (List Char)).countP
        (fun line => stripChars line == GITIGNORE_ENTRY) = 1 := by decide
    rw [hzero, h1, if_pos rfl]

theorem ensure_preserves (content : List Char) :
    ∃ rest, ensure_gitignore (some content) = content ++ rest := by
  rw [ensure_some]
  by_cases hany : (splitLinesChars content).any
      (fun line => stripChars line == GITIGNORE_ENTRY) = true
  · exact ⟨[], by rw [if_pos hany, List.append_nil]⟩
  · refine ⟨(if content ≠ [] ∧ content.getLast? ≠ some '\n' then ['\n'] else [])
      ++ GITIGNORE_ENTRY ++ ['\n'], ?_⟩
    rw [if_neg hany]
    simp [List.append_assoc]

/-- Claim C7: For every initial ignore-file content (file absent included)
and every `N ≥ 1`, `N` successive `ensure_gitignore` calls produce exactly
the single-call result (so no duplicate is ever added): the tracked line
`.aftr/.state.json` ends up present exactly once when it was absent (and
the count of lines carrying it is otherwise untouched), while the whole
pre-existing content survives byte-for-byte as a prefix of the result. -/
theorem ensure_gitignore_idempotent_once
    (file : Option (List Char)) (N : Nat) (hN : 1 ≤ N) :
    ensure_gitignore_iter N file = some (ensure_gitignore file) ∧
    (∀ content, file = some content →
      (∃ rest, ensure_gitignore file = content ++ rest) ∧
      entryLineCount (ensure_gitignore file) =
        (if entryLineCount content = 0 then 1 else entryLineCount content)) ∧
    (file = none →
      ensure_gitignore file = GITIGNORE_ENTRY ++ ['\n'] ∧
      entryLineCount (ensure_gitignore file) = 1) := by
  obtain ⟨m, rfl⟩ : ∃ m, N = m + 1 := ⟨N - 1, by omega⟩
  refine ⟨ensure_iter_succ m file, ?_, ?_⟩
  · intro content hc
    subst hc
    exact ⟨ensure_preserves content, ensure_count content⟩
  · intro hn
    subst hn
    exact ⟨rfl, by decide⟩

/-- Witness for C7: three calls on a file holding an unrelated line equal
one call, which keeps the old content as a prefix and adds the entry once. -/
theorem ensure_gitignore_idempotent_once_witness :
    ensure_gitignore_iter 3 (some "node_modules\n".toList)
      = some (ensure_gitignore (some "node_modules\n".toList)) ∧
    ensure_gitignore (some "node_modules\n".toList)
      = "node_modules\n".toList ++ (GITIGNORE_ENTRY ++ ['\n']) :=
  ⟨(ensure_gitignore_idempotent_once (some "node_modules\n".toList) 3
      (by decide)).1,
   by decide⟩
